import Mathlib

/-!
Verification development for `check-packages.js`, a package staleness
auditor.  The program reads a watch-list of package specifiers, merges the
project's `package.json` dependency fields with the dependency graph from
`package-lock.json` (both npm v1-v6 nested `dependencies` and npm v7+
flattened `packages` schemas), compares installed versions to requested
thresholds with the `semver` library, and writes a CSV report.

The JavaScript functions are embedded shallowly: strings are Lean
`String`s manipulated as `List Char` (JS `.length`/`substring` count
UTF-16 units; all inputs of interest are ASCII so code points coincide),
JS objects used as string-keyed maps become association lists with
JS-object insert/overwrite semantics, missing/`null`/`undefined` values
become `Option`, and thrown exceptions become `Except`.
-/

namespace CheckPackages

/-! ## Generic character-list utilities (JS string primitives) -/

/-- JS `String.prototype.trim` (restricted to ASCII whitespace, which is
all the repository's inputs use). -/
def trimChars (l : List Char) : List Char :=
  ((l.dropWhile Char.isWhitespace).reverse.dropWhile Char.isWhitespace).reverse

/-- JS `String.prototype.split(c)` for a single-character separator:
splits at every occurrence, keeping empty segments. -/
def splitChar (c : Char) : List Char → List (List Char)
  | [] => [[]]
  | x :: xs =>
    if x = c then [] :: splitChar c xs
    else
      match splitChar c xs with
      | h :: t => (x :: h) :: t
      | [] => [[x]]

/-- JS `String.prototype.lastIndexOf(c)`, as `Option Nat`
(`none` plays the role of `-1`). -/
def lastIdxOf (c : Char) : List Char → Option Nat
  | [] => none
  | x :: xs =>
    match lastIdxOf c xs with
    | some i => some (i + 1)
    | none => if x = c then some 0 else none

/-- JS `String.prototype.includes(pat)`. -/
def hasSubstr (pat : List Char) : List Char → Bool
  | [] => pat.isEmpty
  | x :: xs => pat.isPrefixOf (x :: xs) || hasSubstr pat xs

/-- JS `String.prototype.replace(pat, '')` for a plain-string pattern:
removes the first occurrence of `pat`, if any. -/
def removeFirst (pat : List Char) : List Char → List Char
  | [] => []
  | x :: xs =>
    if pat.isPrefixOf (x :: xs) then (x :: xs).drop pat.length
    else x :: removeFirst pat xs

/-! ## JS objects used as string-keyed maps

`check-packages.js` accumulates results in a plain object `packages`;
assignment `packages[name] = v` overwrites the value if the key exists
(keeping its position in insertion order) and appends otherwise. -/

/-- A JS object used as a map from package name to version string. -/
abbrev PkgMap := List (String × String)

/-- JS property write `m[k] = v`. -/
def setKey : PkgMap → String → String → PkgMap
  | [], k, v => [(k, v)]
  | (a, b) :: t, k, v =>
    if a = k then (a, v) :: t else (a, b) :: setKey t k v

/-- JS property read `m[k]`, `none` for `undefined`. -/
def getKey : PkgMap → String → Option String
  | [], _ => none
  | (a, b) :: t, k => if a = k then some b else getKey t k

/-- Apply a sequence of property writes in order. -/
def applyWrites (ws : List (String × String)) (m : PkgMap) : PkgMap :=
  ws.foldl (fun acc kv => setKey acc kv.1 kv.2) m

/-- The value of the last write to key `k` in a write sequence, if any. -/
def lookupLast (ws : List (String × String)) (k : String) : Option String :=
  match ws with
  | [] => none
  | (a, b) :: rest =>
    match lookupLast rest k with
    | some v => some v
    | none => if a = k then some b else none

/-! ## The semver library (the parts `check-packages.js` uses)

`isVersionLowerOrEqual` calls `semver.clean` and `semver.lte`.  We embed
the relevant library internals: the strict `FULL` version grammar
(`v? major.minor.patch (-prerelease)? (+build)?` with numeric identifiers
forbidding leading zeros), `clean` (trim, strip a leading `[=v]+` run,
re-trim inside the `SemVer` constructor, parse), and `compare`
(`compareMain` then `comparePre`, with `compareIdentifiers` treating
numeric identifiers as numbers and numerics below alphanumerics). -/

/-- A parsed prerelease identifier: JS keeps it as a number when it is all
digits and below `Number.MAX_SAFE_INTEGER`, as a string otherwise. -/
inductive PreId where
  | num (n : Nat)
  | str (s : List Char)
deriving DecidableEq, Repr

/-- A parsed semantic version (build metadata is validated but not stored,
mirroring that `compare` ignores it). -/
structure SemVer where
  major : Nat
  minor : Nat
  patch : Nat
  prerelease : List PreId
deriving DecidableEq, Repr

/-- The JS constant `Number.MAX_SAFE_INTEGER`. -/
def maxSafeInteger : Nat := 9007199254740991

/-- Characters allowed in prerelease/build identifiers: `[0-9A-Za-z-]`. -/
def isIdentChar (c : Char) : Bool := c.isDigit || c.isAlpha || c = '-'

/-- Numeric value of a digit run (exact; JS coerces with `+`, which is
exact below 2^53 and only rounds above `maxSafeInteger`, where both the
library and this model reject main-version numbers anyway). -/
def digitsToNat (l : List Char) : Nat :=
  l.foldl (fun n c => n * 10 + (c.toNat - '0'.toNat)) 0

/-- The regex alternation `0|[1-9]\d*`: a digit run with no leading zero
(except `0` itself).  Inside the anchored `FULL` regex a numeric
identifier is always a maximal digit run, so this decides acceptance. -/
def validNumRun (l : List Char) : Bool :=
  match l with
  | [] => false
  | ['0'] => true
  | c :: _ => c ≠ '0'

/-- Parse one `major`/`minor`/`patch` numeric identifier as a maximal
digit run; returns the value and the rest of the input. -/
def parseNum (cs : List Char) : Option (Nat × List Char) :=
  let ds := cs.takeWhile Char.isDigit
  let rest := cs.dropWhile Char.isDigit
  if validNumRun ds then some (digitsToNat ds, rest) else none

/-- The regex `/^[0-9]+$/` used by `compareIdentifiers` and the
prerelease-identifier classification. -/
def isNumericRun (l : List Char) : Bool :=
  !l.isEmpty && l.all Char.isDigit

/-- One prerelease identifier:
`0|[1-9]\d*|\d*[a-zA-Z-][0-9a-zA-Z-]*` — a nonempty identifier-character
run that, when all digits, has no leading zero.  All-digit identifiers
below `maxSafeInteger` become numbers (`+id`), everything else stays a
string. -/
def classifyPreId (l : List Char) : Option PreId :=
  if l.isEmpty then none
  else if l.all Char.isDigit then
    if validNumRun l then
      let n := digitsToNat l
      if n < maxSafeInteger then some (.num n) else some (.str l)
    else none
  else if l.all isIdentChar then some (.str l) else none

/-- One build identifier: `[0-9a-zA-Z-]+` (leading zeros allowed). -/
def validBuildId (l : List Char) : Bool :=
  !l.isEmpty && l.all isIdentChar

/-- Map `classifyPreId` across dot-separated segments, failing if any
segment is invalid. -/
def classifyPreIds (segs : List (List Char)) : Option (List PreId) :=
  match segs with
  | [] => some []
  | s :: rest =>
    match classifyPreId s, classifyPreIds rest with
    | some i, some t => some (i :: t)
    | _, _ => none

/-- Parse the `(?:\+(BUILD))?$` tail: either end of input or `+` followed
by dot-separated build identifiers reaching the end. -/
def parseBuildTail (cs : List Char) : Bool :=
  match cs with
  | [] => true
  | '+' :: r =>
    let chunk := r.takeWhile (fun c => isIdentChar c || c = '.')
    let rest := r.dropWhile (fun c => isIdentChar c || c = '.')
    rest.isEmpty && (splitChar '.' chunk).all validBuildId
  | _ => false

/-- Parse `(?:-(PRERELEASE))?` then the build tail, returning the
prerelease identifiers. -/
def parsePreAndBuild (cs : List Char) : Option (List PreId) :=
  match cs with
  | '-' :: r =>
    let chunk := r.takeWhile (fun c => isIdentChar c || c = '.')
    let rest := r.dropWhile (fun c => isIdentChar c || c = '.')
    match classifyPreIds (splitChar '.' chunk) with
    | some ids => if parseBuildTail rest then some ids else none
    | none => none
  | _ => if parseBuildTail cs then some [] else none

/-- The `SemVer` constructor on an already-trimmed string: length limit
(`MAX_LENGTH = 256`), the anchored `FULL` regex
`^v?(0|[1-9]\d*)\.(0|[1-9]\d*)\.(0|[1-9]\d*)(-pre)?(\+build)?$`, and the
`MAX_SAFE_INTEGER` bound on the three main numbers. -/
def parseSemVerChars (cs : List Char) : Option SemVer :=
  if cs.length > 256 then none
  else
    let cs := match cs with
      | 'v' :: r => r
      | l => l
    match parseNum cs with
    | none => none
    | some (maj, r1) =>
      match r1 with
      | '.' :: r2 =>
        match parseNum r2 with
        | none => none
        | some (mnr, r3) =>
          match r3 with
          | '.' :: r4 =>
            match parseNum r4 with
            | none => none
            | some (pat, r5) =>
              if maj > maxSafeInteger || mnr > maxSafeInteger ||
                  pat > maxSafeInteger then none
              else
                match parsePreAndBuild r5 with
                | some pre => some ⟨maj, mnr, pat, pre⟩
                | none => none
          | _ => none
      | _ => none

/-- The function `semver.parse` on a string: `new SemVer(version.trim())`, with any
exception turned into `null`. -/
def parseSemVer (s : String) : Option SemVer :=
  parseSemVerChars (trimChars s.data)

/-- The function `semver.clean`, i.e. `parse(version.trim().replace(/^[=v]+/, ''))`.  The
model returns the parsed structure instead of the canonical string; the
caller (`semver.lte`) immediately re-parses the canonical string to the
same structure. -/
def semverClean (s : String) : Option SemVer :=
  parseSemVer (String.mk ((trimChars s.data).dropWhile (fun c => c = '=' || c = 'v')))

/-- JS `<` on strings: lexicographic by code unit. -/
def lexLtChars : List Char → List Char → Bool
  | [], [] => false
  | [], _ :: _ => true
  | _ :: _, [] => false
  | x :: xs, y :: ys => if x = y then lexLtChars xs ys else decide (x < y)

/-- Three-way comparison of Nats, as JS `a === b ? 0 : a < b ? -1 : 1`. -/
def cmpNat (a b : Nat) : Ordering :=
  if a < b then .lt else if a = b then .eq else .gt

/-- The function `compareIdentifiers` from the semver library: identifiers that are
numbers (or all-digit strings) compare numerically, a numeric identifier
is below an alphanumeric one, and two non-numeric strings compare by JS
`<`, i.e. lexicographically by code unit. -/
def cmpPreId : PreId → PreId → Ordering
  | .num a, .num b => cmpNat a b
  | .num a, .str s => if isNumericRun s then cmpNat a (digitsToNat s) else .lt
  | .str s, .num b => if isNumericRun s then cmpNat (digitsToNat s) b else .gt
  | .str a, .str b =>
    if isNumericRun a && isNumericRun b then cmpNat (digitsToNat a) (digitsToNat b)
    else if a = b then .eq
    else if isNumericRun a then .lt
    else if isNumericRun b then .gt
    else if lexLtChars a b then .lt else .gt

/-- The identifier loop of `comparePre`: `a === b` (strict equality, so a
number never equals a string) continues to the next pair, the first
non-identical pair decides via `compareIdentifiers` (even when that
returns 0), and running out on one side decides (`b === undefined → 1`,
`a === undefined → -1`). -/
def comparePreLoop : List PreId → List PreId → Ordering
  | [], [] => .eq
  | _ :: _, [] => .gt
  | [], _ :: _ => .lt
  | x :: xs, y :: ys => if x = y then comparePreLoop xs ys else cmpPreId x y

/-- The method `comparePre`: a version with a prerelease sorts below the same version
without one; two prereleases run the identifier loop. -/
def comparePre : List PreId → List PreId → Ordering
  | [], [] => .eq
  | _ :: _, [] => .lt
  | [], _ :: _ => .gt
  | a, b => comparePreLoop a b

/-- The function `semver.compare`, i.e. `compareMain(other) || comparePre(other)`, where
`compareMain` chains major, minor, patch (JS `||` on `-1/0/1` is exactly
`Ordering.then`). -/
def semverCompare (a b : SemVer) : Ordering :=
  (cmpNat a.major b.major).then
    ((cmpNat a.minor b.minor).then
      ((cmpNat a.patch b.patch).then (comparePre a.prerelease b.prerelease)))

/-- The function `semver.lte`, i.e. `compare(a, b) <= 0`. -/
def semverLteB (a b : SemVer) : Bool :=
  match semverCompare a b with
  | .gt => false
  | _ => true

/-! ## `parsePackageLine` (check-packages.js lines 12-43) -/

/-- The parsed form of one watch-list line: `{ packageName, version }`,
with `version = none` for JS `null`. -/
structure WatchEntry where
  packageName : String
  version : Option String
deriving DecidableEq, Repr

/-- The function `parsePackageLine` on the line's characters: trim; blank lines give
`null`; a line starting with `@` is split on `@` (2 segments: scoped name
without version; 3 segments: `@` + second segment and third segment as
version; anything else: `null`); otherwise split at the last `@` if
any. -/
def parseLineChars (line : List Char) : Option WatchEntry :=
  let l := trimChars line
  match l with
  | [] => none
  | c :: _ =>
    if c = '@' then
      match splitChar '@' l with
      | [_, _] => some ⟨String.mk l, none⟩
      | [_, s1, s2] => some ⟨String.mk ('@' :: s1), some (String.mk s2)⟩
      | _ => none
    else
      match lastIdxOf '@' l with
      | none => some ⟨String.mk l, none⟩
      | some i => some ⟨String.mk (l.take i), some (String.mk (l.drop (i + 1)))⟩

/-- The function `parsePackageLine` on a Lean string. -/
def parsePackageLine (line : String) : Option WatchEntry :=
  parseLineChars line.data

/-! ## `collectAllDependencies` (lines 50-65, npm v1-v6 schema) -/

/-- One level of a `package-lock.json` (npm v1-v6) `dependencies`
mapping, as the entry sequence of the JS object: each entry carries its
name, an optional `version` string, its nested `dependencies` mapping of
the same shape, and the remaining entries of the current level.  JS
distinguishes an absent `dependencies` field from an empty object, but
`collectAllDependencies` only guards a `forEach` with the field's
truthiness, so recursing into an empty mapping and skipping an absent one
coincide; the model writes both as `nil`. -/
inductive DepEntries where
  | nil
  | cons (name : String) (version : Option String) (deps : DepEntries) (rest : DepEntries)

/-- The expression `info.version.replace(/^[\^~>=<]+/, '')`: strip the leading run of
range-operator characters. -/
def isRangeOp (c : Char) : Bool :=
  c = '^' || c = '~' || c = '>' || c = '=' || c = '<'

/-- Version cleaning used by both lockfile schemas. -/
def cleanRange (s : String) : String :=
  String.mk (s.data.dropWhile isRangeOp)

/-- The function `collectAllDependencies(dependencies, packages)`: for each entry in
order, if `info.version` is truthy record `name → cleanVersion`
(overwriting), then recurse into `info.dependencies`, then continue with
the remaining entries of the level. -/
def collectAllDependencies : DepEntries → PkgMap → PkgMap
  | .nil, m => m
  | .cons name ver deps rest, m =>
    let m1 := match ver with
      | some v => if v = "" then m else setKey m name (cleanRange v)
      | none => m
    collectAllDependencies rest (collectAllDependencies deps m1)

/-- The depth-first sequence of `name → cleanedVersion` writes performed
by `collectAllDependencies`. -/
def depVisits : DepEntries → List (String × String)
  | .nil => []
  | .cons name ver deps rest =>
    (match ver with
      | some v => if v = "" then [] else [(name, cleanRange v)]
      | none => []) ++ depVisits deps ++ depVisits rest

/-! ## The npm v7+ `packages` schema (lines 103-115) -/

/-- The install-directory marker `node_modules/`. -/
def nmMarker : List Char := "node_modules/".data

/-- Processing of one `packageLock.packages` entry `(packagePath, info)`
(only `info.version` matters): if the path starts with `node_modules/`,
let `packageName` be the path with the first occurrence of the marker
removed, and if the version is truthy and `packageName` does not contain
`/node_modules/`, record `packageName → cleanVersion`. -/
def processPackagesEntry (m : PkgMap) (e : String × Option String) : PkgMap :=
  if nmMarker.isPrefixOf e.1.data then
    let packageName := removeFirst nmMarker e.1.data
    match e.2 with
    | some v =>
      if v ≠ "" ∧ hasSubstr "/node_modules/".data packageName = false then
        setKey m (String.mk packageName) (cleanRange v)
      else m
    | none => m
  else m

/-- The `Object.entries(packageLock.packages).forEach` loop. -/
def processPackagesField (entries : List (String × Option String)) (m : PkgMap) : PkgMap :=
  entries.foldl processPackagesEntry m

/-- The write performed by one `packages` entry, if any. -/
def entryWrite (e : String × Option String) : Option (String × String) :=
  if nmMarker.isPrefixOf e.1.data then
    let packageName := removeFirst nmMarker e.1.data
    match e.2 with
    | some v =>
      if v ≠ "" ∧ hasSubstr "/node_modules/".data packageName = false then
        some (String.mk packageName, cleanRange v)
      else none
    | none => none
  else none

/-! ## `loadProjectPackages` (lines 72-129)

The filesystem and JSON layer is modelled as already-parsed data:
a missing file is `none`; for the lockfile, `some none` stands for a file
that is present but fails `JSON.parse` (the inner `catch`). -/

/-- The three dependency fields read from `package.json`; `none` models
an absent (falsy) field. -/
structure PackageJson where
  dependencies : Option (List (String × String))
  devDependencies : Option (List (String × String))
  peerDependencies : Option (List (String × String))

/-- The two lockfile schema fields of `package-lock.json`. -/
structure PackageLock where
  dependencies : Option DepEntries
  packages : Option (List (String × Option String))

/-- Console messages (`console.log` as `info`, `console.warn` as
`warn`). -/
inductive Msg where
  | info (s : String)
  | warn (s : String)
deriving DecidableEq, Repr

/-- The `Object.assign(packages, packageJson[depType])` sequence over
`dependencies`, `devDependencies`, `peerDependencies`. -/
def manifestWrites (pj : PackageJson) : List (String × String) :=
  pj.dependencies.getD [] ++ pj.devDependencies.getD [] ++ pj.peerDependencies.getD []

/-- The function `loadProjectPackages(projectPath)`: a missing `package.json` throws
an error naming its path; otherwise the map is seeded from the manifest
fields, then (when `package-lock.json` exists and parses) augmented by
`collectAllDependencies` and the `packages`-field loop, with messages for
the lockfile-missing / lockfile-unreadable / lockfile-loaded cases.
`console.log` progress output other than these is not modelled. -/
def loadProjectPackages (projectPath : String) (pj : Option PackageJson)
    (pl : Option (Option PackageLock)) : Except String (PkgMap × List Msg) :=
  match pj with
  | none => .error ("package.json が見つかりません: " ++ projectPath ++ "/package.json")
  | some pj =>
    let m := applyWrites (pj.dependencies.getD []) []
    let m := applyWrites (pj.devDependencies.getD []) m
    let m := applyWrites (pj.peerDependencies.getD []) m
    match pl with
    | none => .ok (m, [.info "package-lock.json が見つかりません（package.jsonのみ使用）"])
    | some none => .ok (m, [.warn "package-lock.json の読み込みに失敗しました（package.jsonのみ使用）"])
    | some (some lock) =>
      let m := match lock.dependencies with
        | some d => collectAllDependencies d m
        | none => m
      let m := match lock.packages with
        | some entries => processPackagesField entries m
        | none => m
      .ok (m, [.info "package-lock.json からも依存関係を読み込みました"])

/-! ## The join, the report and `main` (lines 136-262) -/

/-- The function `loadPackageList` applied to the file content: split on the newline character,
parse each line, keep non-null results. -/
def loadPackageListContent (content : String) : List WatchEntry :=
  (splitChar '\n' content.data).filterMap parseLineChars

/-- One row of the final report. -/
structure MatchRecord where
  packageName : String
  version : String
  requiredVersion : Option String
  isLowerOrEqual : Bool
deriving DecidableEq, Repr

/-- The function `isVersionLowerOrEqual(installedVersion, requiredVersion)` together
with the number of warnings it logs.  A falsy required version short
circuits to `false`.  `semver.clean` returns `null` (never throws) on
invalid string input and `semver.lte` on two cleaned versions cannot
throw, so the `catch` that logs `バージョン比較エラー` is unreachable for
string inputs and the warning count is 0 on every path. -/
def isVersionLowerOrEqualW (installedVersion : String)
    (requiredVersion : Option String) : Bool × Nat :=
  match requiredVersion with
  | none => (false, 0)
  | some req =>
    if req = "" then (false, 0)
    else
      match semverClean installedVersion, semverClean req with
      | some a, some b => (semverLteB a b, 0)
      | _, _ => (false, 0)

/-- The boolean result of `isVersionLowerOrEqual`. -/
def isVersionLowerOrEqual (installedVersion : String)
    (requiredVersion : Option String) : Bool :=
  (isVersionLowerOrEqualW installedVersion requiredVersion).1

/-- The `packageList.forEach` join in `main` (lines 235-250): for each
watch entry whose name maps to a truthy installed version, emit a
`MatchRecord` with the staleness flag. -/
def buildResults (m : PkgMap) (pkgs : List WatchEntry) : List MatchRecord :=
  pkgs.filterMap fun p =>
    match getKey m p.packageName with
    | some iv =>
      if iv = "" then none
      else some ⟨p.packageName, iv, p.version, isVersionLowerOrEqual iv p.version⟩
    | none => none

/-- The function `writeResultsToCSV(results, outputPath)`: with no results, no file is
written and an informational message is logged; otherwise the CSV (header
plus one `name,version,warning` row per record, `×` marking stale) is
written to `outputPath`.  Returns the written file (path, content) and
the messages. -/
def writeResultsToCSV (results : List MatchRecord) (outputPath : String) :
    Option (String × String) × List Msg :=
  if results.isEmpty then (none, [.info "検出されたパッケージがありません。"])
  else
    let csvLines := "パッケージ名,バージョン,警告" ::
      results.map (fun r =>
        r.packageName ++ "," ++ r.version ++ "," ++
          (if r.isLowerOrEqual then "×" else ""))
    (some (outputPath, String.intercalate "\n" csvLines),
      [.info ("結果を " ++ outputPath ++ " に出力しました。")])

/-- The files the program can read: the watch-list file content, and the
two project files (`none` = missing; for the lockfile `some none` =
present but unparseable). -/
structure World where
  listFile : Option String
  packageJson : Option PackageJson
  packageLock : Option (Option PackageLock)

/-- The function `main`: observable outcome of one run — the exit code and the file
written, if any.  Fewer than two arguments or any thrown error exits 1;
otherwise the pipeline runs and the process exits 0 (also with zero
matches). -/
def mainRun (args : List String) (w : World) : Nat × Option (String × String) :=
  if args.length < 2 then (1, none)
  else
    let outputPath := match (args.drop 2).head? with
      | some s => if s = "" then "result.csv" else s
      | none => "result.csv"
    match w.listFile with
    | none => (1, none)
    | some content =>
      let packageList := loadPackageListContent content
      match loadProjectPackages ((args.drop 1).headD "") w.packageJson w.packageLock with
      | .error _ => (1, none)
      | .ok (m, _) =>
        let results := buildResults m packageList
        let (out, _) := writeResultsToCSV results outputPath
        (0, out)

/-- The map `loadProjectPackages` produces when the manifest is present,
as a total function of the parsed files. -/
def okMap (pj : PackageJson) (pl : Option (Option PackageLock)) : PkgMap :=
  let m := applyWrites (pj.dependencies.getD []) []
  let m := applyWrites (pj.devDependencies.getD []) m
  let m := applyWrites (pj.peerDependencies.getD []) m
  match pl with
  | none => m
  | some none => m
  | some (some lock) =>
    let m := match lock.dependencies with
      | some d => collectAllDependencies d m
      | none => m
    match lock.packages with
    | some entries => processPackagesField entries m
    | none => m

/-- The messages `loadProjectPackages` logs when the manifest is
present. -/
def okMsgs (pl : Option (Option PackageLock)) : List Msg :=
  match pl with
  | none => [.info "package-lock.json が見つかりません（package.jsonのみ使用）"]
  | some none => [.warn "package-lock.json の読み込みに失敗しました（package.jsonのみ使用）"]
  | some (some _) => [.info "package-lock.json からも依存関係を読み込みました"]

/-- The sequence of map writes contributed by the lockfile (schema A
depth-first visits, then schema B accepted entries). -/
def lockWrites (lock : PackageLock) : List (String × String) :=
  (match lock.dependencies with
    | some d => depVisits d
    | none => []) ++
  (match lock.packages with
    | some entries => entries.filterMap entryWrite
    | none => [])

/-! ## Spec-side definitions

The following definitions follow the wording of the specification (not
the code); they exist to state claims whose wording diverges from the
code, for comparison against the source-derived definitions above. -/

/-- Modelled from the spec's wording for the Version Comparator
normalization: "stripping a leading version-range operator (such as `^`,
`~`, `>`, `=`, `<`) and other non-semver decoration" — read generously
as trimming whitespace and stripping any leading run of range-operator
or `v` decoration characters. -/
def specNormalize (s : String) : String :=
  String.mk (trimChars ((trimChars s.data).dropWhile
    (fun c => c = '^' || c = '~' || c = '>' || c = '=' || c = '<' || c = 'v')))

/-- Whether a string parses as a valid semantic version after the
spec-worded normalization. -/
def specParses (s : String) : Bool :=
  (parseSemVerChars (specNormalize s).data).isSome

/-- Claim C1 as stated: with a requested version present, whenever either
spec-normalized string fails to parse as a semantic version, the
comparator returns false AND logs a comparison-failure warning. -/
def ClaimC1 : Prop :=
  ∀ installed requested : String, requested ≠ "" →
    (specParses installed = false ∨ specParses requested = false) →
    (isVersionLowerOrEqualW installed (some requested)).1 = false ∧
      1 ≤ (isVersionLowerOrEqualW installed (some requested)).2

/-- Claim C4's acceptance rule as stated: an entry is recorded exactly
when its path starts with the install-directory marker `node_modules/`
and the remainder after stripping that prefix contains no further
occurrence of the marker. -/
def specAcceptB (path : String) : Bool :=
  nmMarker.isPrefixOf path.data &&
    !hasSubstr nmMarker (path.data.drop nmMarker.length)

/-- Claim C4 as stated, for entries carrying a version: the collector
records `remainder → cleanedVersion` when `specAcceptB` holds and leaves
the map unchanged otherwise. -/
def ClaimC4 : Prop :=
  ∀ (m : PkgMap) (path v : String), v ≠ "" →
    processPackagesEntry m (path, some v) =
      if specAcceptB path then
        setKey m (String.mk (path.data.drop nmMarker.length)) (cleanRange v)
      else m

/-! ## Helper lemmas -/

theorem getKey_setKey (m : PkgMap) (a b k : String) :
    getKey (setKey m a b) k = if a = k then some b else getKey m k := by
  induction m with
  | nil => simp [setKey, getKey]
  | cons p t ih =>
    obtain ⟨x, y⟩ := p
    by_cases hxa : x = a
    · subst hxa
      by_cases hk : x = k <;> simp [setKey, getKey, hk]
    · by_cases hk : x = k
      · subst hk
        have hak : ¬a = x := fun hh => hxa hh.symm
        simp [setKey, getKey, hxa, hak]
      · simp [setKey, getKey, hxa, hk, ih]

theorem applyWrites_append (w₁ w₂ : List (String × String)) (m : PkgMap) :
    applyWrites (w₁ ++ w₂) m = applyWrites w₂ (applyWrites w₁ m) := by
  simp [applyWrites, List.foldl_append]

theorem getKey_applyWrites (ws : List (String × String)) (m : PkgMap) (k : String) :
    getKey (applyWrites ws m) k =
      match lookupLast ws k with
      | some v => some v
      | none => getKey m k := by
  induction ws generalizing m with
  | nil => simp [applyWrites, lookupLast]
  | cons p rest ih =>
    obtain ⟨a, b⟩ := p
    have step : applyWrites ((a, b) :: rest) m = applyWrites rest (setKey m a b) := rfl
    rw [step, ih, lookupLast]
    cases lookupLast rest k with
    | some v => simp
    | none =>
      by_cases h : a = k
      · simp [getKey_setKey, h]
      · simp [getKey_setKey, h]

theorem collect_eq_applyWrites (l : DepEntries) (m : PkgMap) :
    collectAllDependencies l m = applyWrites (depVisits l) m := by
  induction l generalizing m with
  | nil => rfl
  | cons name ver deps rest ihd ihr =>
    cases ver with
    | none =>
      simp [collectAllDependencies, depVisits, applyWrites_append, ihd, ihr]
    | some v =>
      by_cases hv : v = "" <;>
        simp [collectAllDependencies, depVisits, applyWrites_append, ihd, ihr,
          applyWrites, hv]

theorem processEntry_eq (m : PkgMap) (e : String × Option String) :
    processPackagesEntry m e =
      match entryWrite e with
      | some kv => setKey m kv.1 kv.2
      | none => m := by
  unfold processPackagesEntry entryWrite
  by_cases hp : nmMarker.isPrefixOf e.1.data
  · simp only [hp, if_true]
    cases e.2 with
    | none => rfl
    | some v =>
      by_cases hc : v ≠ "" ∧ hasSubstr "/node_modules/".data (removeFirst nmMarker e.1.data) = false
      · simp [hc]
      · simp [hc]
  · simp [hp]

theorem processField_eq (es : List (String × Option String)) (m : PkgMap) :
    processPackagesField es m = applyWrites (es.filterMap entryWrite) m := by
  induction es generalizing m with
  | nil => rfl
  | cons e rest ih =>
    have step : processPackagesField (e :: rest) m =
        processPackagesField rest (processPackagesEntry m e) := rfl
    rw [step, ih, processEntry_eq, List.filterMap_cons]
    cases entryWrite e with
    | none => rfl
    | some kv => rfl

theorem lastIdxOf_not_mem {c : Char} {l : List Char} (h : c ∉ l) :
    lastIdxOf c l = none := by
  induction l with
  | nil => rfl
  | cons x xs ih =>
    have hx : x ≠ c := fun hh => h (hh ▸ List.mem_cons_self x xs)
    have hxs : c ∉ xs := fun hh => h (List.mem_cons_of_mem x hh)
    simp [lastIdxOf, ih hxs, hx]

theorem lastIdxOf_last {c : Char} (a : List Char) {b : List Char} (hb : c ∉ b) :
    lastIdxOf c (a ++ c :: b) = some a.length := by
  induction a with
  | nil => simp [lastIdxOf, lastIdxOf_not_mem hb]
  | cons x xs ih => simp [lastIdxOf, ih]

theorem splitChar_ne_nil (c : Char) (l : List Char) : splitChar c l ≠ [] := by
  cases l with
  | nil => simp [splitChar]
  | cons x xs =>
    by_cases h : x = c
    · simp [splitChar, h]
    · simp only [splitChar, h, if_false]
      cases hs : splitChar c xs with
      | nil => simp
      | cons hh tt => simp

theorem cmpNat_self (n : Nat) : cmpNat n n = .eq := by
  simp [cmpNat]

theorem comparePreLoop_self (l : List PreId) : comparePreLoop l l = .eq := by
  induction l with
  | nil => rfl
  | cons x xs ih => simp [comparePreLoop, ih]

theorem comparePre_self (l : List PreId) : comparePre l l = .eq := by
  cases l with
  | nil => rfl
  | cons x xs =>
    show comparePreLoop (x :: xs) (x :: xs) = .eq
    exact comparePreLoop_self _

theorem semverCompare_self (a : SemVer) : semverCompare a a = .eq := by
  simp [semverCompare, cmpNat_self, comparePre_self, Ordering.then]

theorem loadProjectPackages_ok (p : String) (pj : PackageJson)
    (pl : Option (Option PackageLock)) :
    loadProjectPackages p (some pj) pl = .ok (okMap pj pl, okMsgs pl) := by
  cases pl with
  | none => rfl
  | some inner =>
    cases inner with
    | none => rfl
    | some lock => rfl

theorem parseLineChars_no_at (t : List Char) (htrim : trimChars t = t) (hne : t ≠ [])
    (hhead : t.head? ≠ some '@') (hmem : '@' ∉ t) :
    parseLineChars t = some ⟨String.mk t, none⟩ := by
  obtain ⟨x, xs, rfl⟩ := List.exists_cons_of_ne_nil hne
  have hx : ¬x = '@' := by simpa using hhead
  simp [parseLineChars, htrim, hx, lastIdxOf_not_mem hmem]

theorem parseLineChars_split_last (a b : List Char)
    (htrim : trimChars (a ++ '@' :: b) = a ++ '@' :: b) (ha : a ≠ [])
    (hhead : a.head? ≠ some '@') (hb : '@' ∉ b) :
    parseLineChars (a ++ '@' :: b) = some ⟨String.mk a, some (String.mk b)⟩ := by
  obtain ⟨x, a', rfl⟩ := List.exists_cons_of_ne_nil ha
  have hx : ¬x = '@' := by simpa using hhead
  have hlast : lastIdxOf '@' ((x :: a') ++ '@' :: b) = some (x :: a').length :=
    lastIdxOf_last _ hb
  have htake : ((x :: a') ++ '@' :: b).take (x :: a').length = x :: a' :=
    List.take_left _ _
  have hdrop : ((x :: a') ++ '@' :: b).drop ((x :: a').length + 1) = b := by
    have hsplit : (x :: a') ++ '@' :: b = ((x :: a') ++ ['@']) ++ b := by simp
    rw [hsplit]
    exact List.drop_left' (by simp)
  simp only [List.cons_append] at htrim hlast htake hdrop ⊢
  simp [parseLineChars, htrim, hx, hlast, htake, hdrop]

/-! ## Claim theorems -/

/-- C5: for every trimmed watch-list line starting with `@`, splitting on
`@` with exactly two segments yields the whole line as package name and
no requested version; exactly three segments yields `@` + second segment
as package name and the third segment as requested version; any other
segment count silently drops the line (`null`, no entry, no warning). -/
theorem scoped_line_parse_by_segment_count (t : List Char)
    (htrim : trimChars t = t) (hhead : t.head? = some '@') :
    ((splitChar '@' t).length = 2 → parseLineChars t = some ⟨String.mk t, none⟩)
    ∧ (∀ s1 s2, splitChar '@' t = [[], s1, s2] →
        parseLineChars t = some ⟨String.mk ('@' :: s1), some (String.mk s2)⟩)
    ∧ ((splitChar '@' t).length ≠ 2 → (splitChar '@' t).length ≠ 3 →
        parseLineChars t = none) := by
  obtain ⟨x, xs, rfl⟩ : ∃ x xs, t = x :: xs := by
    cases t with
    | nil => simp at hhead
    | cons c cs => exact ⟨c, cs, rfl⟩
  have hx : x = '@' := by simpa using hhead
  subst hx
  refine ⟨?_, ?_, ?_⟩
  · intro hlen
    obtain ⟨p, q, hs⟩ := List.length_eq_two.mp hlen
    simp [parseLineChars, htrim, hs]
  · intro s1 s2 hs
    simp [parseLineChars, htrim, hs]
  · intro hlen2 hlen3
    rcases hsp : splitChar '@' ('@' :: xs) with _ | ⟨p, _ | ⟨q, _ | ⟨r, rest⟩⟩⟩
    · simp [parseLineChars, htrim, hsp]
    · simp [parseLineChars, htrim, hsp]
    · exact absurd (by rw [hsp]; rfl) hlen2
    · cases rest with
      | nil => exact absurd (by rw [hsp]; rfl) hlen3
      | cons r4 rest4 => simp [parseLineChars, htrim, hsp]

/-- C5 witness: the scoped specifier `@scope/name` (two segments) parses
to itself with no requested version. -/
theorem scoped_line_parse_by_segment_count_witness :
    parseLineChars "@scope/name".data = some ⟨String.mk "@scope/name".data, none⟩ :=
  (scoped_line_parse_by_segment_count "@scope/name".data (by decide) (by decide)).1
    (by decide)

/-- C6: for every non-blank trimmed line not starting with `@`: with no
`@` in the line the whole line is the package name and no version is
requested; otherwise the line splits at its last `@`, package name before
it, requested version after it (`name@version` in particular). -/
theorem unscoped_line_parse_at_last_at :
    (∀ t : List Char, trimChars t = t → t ≠ [] → t.head? ≠ some '@' → '@' ∉ t →
      parseLineChars t = some ⟨String.mk t, none⟩)
    ∧ (∀ a b : List Char, trimChars (a ++ '@' :: b) = a ++ '@' :: b → a ≠ [] →
        a.head? ≠ some '@' → '@' ∉ b →
        parseLineChars (a ++ '@' :: b) = some ⟨String.mk a, some (String.mk b)⟩) :=
  ⟨parseLineChars_no_at, parseLineChars_split_last⟩

/-- C6 witness: `name@1.0.0` parses to package `name` with requested
version `1.0.0`, and `react` parses to itself with no version. -/
theorem unscoped_line_parse_at_last_at_witness :
    parseLineChars ("name".data ++ '@' :: "1.0.0".data) =
      some ⟨String.mk "name".data, some (String.mk "1.0.0".data)⟩ ∧
    parseLineChars "react".data = some ⟨String.mk "react".data, none⟩ :=
  ⟨unscoped_line_parse_at_last_at.2 "name".data "1.0.0".data
      (by decide) (by decide) (by decide) (by decide),
    unscoped_line_parse_at_last_at.1 "react".data
      (by decide) (by decide) (by decide) (by decide)⟩

/-- C10: with no requested version the comparator returns false
unconditionally; an unscoped line ending in `@` parses to an empty-string
requested version, and the comparator treats the empty string exactly
like an absent version, so such an entry is never reported stale. -/
theorem no_requested_version_never_stale :
    (∀ v : String, isVersionLowerOrEqualW v none = (false, 0))
    ∧ (∀ v : String, isVersionLowerOrEqualW v (some "") = (false, 0))
    ∧ (∀ a : List Char, trimChars (a ++ ['@']) = a ++ ['@'] → a ≠ [] →
        a.head? ≠ some '@' →
        parseLineChars (a ++ ['@']) = some ⟨String.mk a, some ""⟩) := by
  refine ⟨fun v => rfl, fun v => rfl, fun a htrim ha hhead => ?_⟩
  exact parseLineChars_split_last a [] htrim ha hhead (by simp)

/-- C10 witness: `name@` parses to requested version `""`, which the
comparator treats as absent. -/
theorem no_requested_version_never_stale_witness :
    parseLineChars ("name".data ++ ['@']) = some ⟨String.mk "name".data, some ""⟩ ∧
    isVersionLowerOrEqualW "4.17.21" (some "") = (false, 0) :=
  ⟨no_requested_version_never_stale.2.2 "name".data (by decide) (by decide) (by decide),
    no_requested_version_never_stale.2.1 "4.17.21"⟩

/-- C3: the schema-A collector visits entries depth first, recording
`name → cleanedVersion` (leading range operators stripped) for each entry
with a truthy version, later writes overwriting earlier ones
(last-visited-wins); the nested example
`a:1.0.0 with dependency b:2.0.0` yields map entries for both `a` and
`b`. -/
theorem schemaA_collect_depth_first :
    (∀ (l : DepEntries) (m : PkgMap),
      collectAllDependencies l m = applyWrites (depVisits l) m)
    ∧ (∀ (l : DepEntries) (m : PkgMap) (k : String),
        getKey (collectAllDependencies l m) k =
          match lookupLast (depVisits l) k with
          | some v => some v
          | none => getKey m k)
    ∧ (getKey (collectAllDependencies
          (.cons "a" (some "1.0.0") (.cons "b" (some "2.0.0") .nil .nil) .nil) []) "a"
        = some "1.0.0"
      ∧ getKey (collectAllDependencies
          (.cons "a" (some "1.0.0") (.cons "b" (some "2.0.0") .nil .nil) .nil) []) "b"
        = some "2.0.0")
    ∧ getKey (collectAllDependencies (.cons "c" (some "^~>=<1.2.3") .nil .nil) []) "c"
        = some "1.2.3"
    ∧ getKey (collectAllDependencies
          (.cons "d" (some "1.0.0") (.cons "d" (some "3.0.0") .nil .nil) .nil) []) "d"
        = some "3.0.0" := by
  refine ⟨collect_eq_applyWrites, ?_, by decide, by decide, by decide⟩
  intro l m k
  rw [collect_eq_applyWrites, getKey_applyWrites]

theorem removeFirst_of_isPrefixOf {pat l : List Char} (h : pat.isPrefixOf l = true) :
    removeFirst pat l = l.drop pat.length := by
  cases l with
  | nil => simp [removeFirst]
  | cons x xs => simp [removeFirst, h]

/-- C4 counterexample: the entry
`("node_modules/node_modules/b", version "1.0.0")` has a remainder
(`node_modules/b`) that contains a further occurrence of the
install-directory marker, so the claim says it is skipped; the code only
rejects remainders containing `/node_modules/` (with a separator) and
records it under `node_modules/b`. -/
theorem schemaB_marker_claim_false : ¬ClaimC4 := by
  intro h
  have h1 := h [] "node_modules/node_modules/b" "1.0.0" (by decide)
  have h2 : processPackagesEntry [] ("node_modules/node_modules/b", some "1.0.0")
      = [("node_modules/b", "1.0.0")] := by decide
  have h3 : specAcceptB "node_modules/node_modules/b" = false := by decide
  rw [h2, h3] at h1
  simp at h1

/-- C4 (amended): a schema-B entry with a truthy version is recorded
exactly when its path starts with `node_modules/` and the remainder after
stripping that prefix does not contain `/node_modules/` (the marker
preceded by a path separator, i.e. a package-local install directory);
such nested-subtree entries are skipped, entries whose path lacks the
marker prefix are ignored, and accepted entries are recorded under the
remainder with the version cleaned of leading range operators. -/
theorem schemaB_entry_rule :
    (∀ (m : PkgMap) (path v : String), v ≠ "" →
      nmMarker.isPrefixOf path.data = true →
      processPackagesEntry m (path, some v) =
        if hasSubstr "/node_modules/".data (path.data.drop nmMarker.length) then m
        else setKey m (String.mk (path.data.drop nmMarker.length)) (cleanRange v))
    ∧ (∀ (m : PkgMap) (path : String) (v : Option String),
        nmMarker.isPrefixOf path.data = false →
        processPackagesEntry m (path, v) = m)
    ∧ processPackagesEntry [] ("node_modules/a/node_modules/b", some "2.0.0") = []
    ∧ processPackagesEntry [] ("node_modules/@scope/x", some "^1.2.3")
        = [("@scope/x", "1.2.3")] := by
  refine ⟨?_, ?_, by decide, by decide⟩
  · intro m path v hv hp
    unfold processPackagesEntry
    simp only [hp, if_true]
    rw [removeFirst_of_isPrefixOf hp]
    by_cases hs : hasSubstr "/node_modules/".data (path.data.drop nmMarker.length) = true
    · simp [hs, hv]
    · simp only [Bool.not_eq_true] at hs
      simp [hs, hv]
  · intro m path v hp
    unfold processPackagesEntry
    simp [hp]

/-- C4 witness: a top-level entry is accepted and recorded under the
stripped name with a cleaned version. -/
theorem schemaB_entry_rule_witness :
    processPackagesEntry [] ("node_modules/lodash", some "^4.17.21") =
      (if hasSubstr "/node_modules/".data ("node_modules/lodash".data.drop nmMarker.length)
        then ([] : PkgMap)
        else setKey [] (String.mk ("node_modules/lodash".data.drop nmMarker.length))
          (cleanRange "^4.17.21")) :=
  schemaB_entry_rule.1 [] "node_modules/lodash" "^4.17.21" (by decide) (by decide)

/-- C2: with a requested version present and both strings cleaning to
valid semantic versions, `isVersionLowerOrEqual` returns true exactly
when installed ≤ requested in the semver ordering (major, then minor,
then patch, then prerelease precedence: a prerelease sorts below its
release); equal versions count as stale, and the three spec examples
evaluate as stated. -/
theorem comparator_is_semver_lte :
    (∀ (i r : String) (a b : SemVer), semverClean i = some a → semverClean r = some b →
      (isVersionLowerOrEqual i (some r) = true ↔ semverCompare a b ≠ .gt))
    ∧ (∀ (v : String) (a : SemVer), semverClean v = some a →
        isVersionLowerOrEqual v (some v) = true)
    ∧ (∀ a b : SemVer, a.major < b.major → semverCompare a b = .lt)
    ∧ (∀ a b : SemVer, a.major = b.major → a.minor < b.minor → semverCompare a b = .lt)
    ∧ (∀ a b : SemVer, a.major = b.major → a.minor = b.minor → a.patch < b.patch →
        semverCompare a b = .lt)
    ∧ (∀ a b : SemVer, a.major = b.major → a.minor = b.minor → a.patch = b.patch →
        a.prerelease ≠ [] → b.prerelease = [] → semverCompare a b = .lt)
    ∧ isVersionLowerOrEqual "1.0.0" (some "1.0.0") = true
    ∧ isVersionLowerOrEqual "2.0.0" (some "1.9.9") = false
    ∧ isVersionLowerOrEqual "1.0.0" (some "1.0.1") = true := by
  refine ⟨?_, ?_, ?_, ?_, ?_, ?_, by decide, by decide, by decide⟩
  · intro i r a b hi hr
    have hr0 : ¬r = "" := by
      intro hempty
      rw [hempty] at hr
      have hnone : semverClean "" = none := by decide
      rw [hnone] at hr
      exact Option.noConfusion hr
    simp only [isVersionLowerOrEqual, isVersionLowerOrEqualW, hr0, if_false, hi, hr]
    cases hc : semverCompare a b <;> simp [semverLteB, hc]
  · intro v a hv
    have hv0 : ¬v = "" := by
      intro hempty
      rw [hempty] at hv
      have hnone : semverClean "" = none := by decide
      rw [hnone] at hv
      exact Option.noConfusion hv
    simp [isVersionLowerOrEqual, isVersionLowerOrEqualW, hv0, hv, semverLteB,
      semverCompare_self]
  · intro a b h
    simp [semverCompare, cmpNat, h, Ordering.then]
  · intro a b h1 h2
    simp [semverCompare, cmpNat, h1, h2, Ordering.then]
  · intro a b h1 h2 h3
    simp [semverCompare, cmpNat, h1, h2, h3, Ordering.then]
  · intro a b h1 h2 h3 h4 h5
    obtain ⟨x, xs, hx⟩ := List.exists_cons_of_ne_nil h4
    simp [semverCompare, cmpNat, h1, h2, h3, hx, h5, Ordering.then, comparePre]

/-- C2 witness: the comparator agrees with the semver order at
`1.0.2 ≤ 1.1.0`. -/
theorem comparator_is_semver_lte_witness :
    isVersionLowerOrEqual "1.0.2" (some "1.1.0") = true :=
  (comparator_is_semver_lte.1 "1.0.2" "1.1.0" ⟨1, 0, 2, []⟩ ⟨1, 1, 0, []⟩
    (by decide) (by decide)).mpr (by decide)

/-- C1 counterexample: at installed `abc`, requested `1.0.0`, the
normalized installed string fails to parse as a semantic version; the
code returns false but logs no comparison-failure warning (the `catch`
that warns is unreachable for string inputs), refuting the claim that a
warning is logged. -/
theorem comparator_warns_claim_false : ¬ClaimC1 := by
  intro h
  have h1 := h "abc" "1.0.0" (by decide) (Or.inl (by decide))
  exact absurd h1.2 (by decide)

/-- C1 (amended): with a requested version present, both strings are
normalized by the semantic-version cleaning rule (`semver.clean`: trim
and strip a leading run of `=` and `v` characters — range operators such
as `^` and `~` are NOT stripped and make parsing fail), and if either
normalized string fails to parse as a valid semantic version the function
returns false (non-stale) silently — it logs no warning and raises no
error. -/
theorem comparator_parse_failure_silent (i r : String)
    (h : semverClean i = none ∨ semverClean r = none) :
    isVersionLowerOrEqualW i (some r) = (false, 0) := by
  by_cases hr0 : r = ""
  · simp [isVersionLowerOrEqualW, hr0]
  · simp only [isVersionLowerOrEqualW, hr0, if_false]
    rcases h with h | h
    · rw [h]
    · rw [h]
      cases semverClean i <;> rfl

/-- C1 witness: `^1.0.0` (range operator not stripped by the cleaning
rule) fails to parse, and the comparator returns false with no
warning. -/
theorem comparator_parse_failure_silent_witness :
    isVersionLowerOrEqualW "1.0.0" (some "^1.0.0") = (false, 0) :=
  comparator_parse_failure_silent "1.0.0" "^1.0.0" (Or.inr (by decide))

theorem applyWrites_nil (m : PkgMap) : applyWrites [] m = m := rfl

theorem okMap_lock_eq (pj : PackageJson) (lock : PackageLock) :
    okMap pj (some (some lock)) =
      applyWrites (lockWrites lock) (applyWrites (manifestWrites pj) []) := by
  have hm : applyWrites (pj.peerDependencies.getD [])
      (applyWrites (pj.devDependencies.getD [])
        (applyWrites (pj.dependencies.getD []) [])) =
      applyWrites (manifestWrites pj) [] := by
    simp [manifestWrites, applyWrites_append]
  unfold okMap
  cases hd : lock.dependencies with
  | none =>
    cases hp : lock.packages with
    | none =>
      simp only [hd, hp, lockWrites, List.nil_append, applyWrites_nil]
      exact hm
    | some es =>
      simp only [hd, hp, lockWrites, List.nil_append, processField_eq]
      rw [hm]
  | some d =>
    cases hp : lock.packages with
    | none =>
      simp only [hd, hp, lockWrites, List.append_nil, collect_eq_applyWrites]
      rw [hm]
    | some es =>
      simp only [hd, hp, lockWrites, collect_eq_applyWrites, processField_eq,
        applyWrites_append]
      rw [hm]

/-- C7: a missing `package.json` is fatal — `loadProjectPackages` throws
an error naming the missing path and the whole run exits nonzero with no
output file; a missing `package-lock.json` is not fatal — the audit
proceeds on the manifest-declared versions alone and only an
informational message is logged. -/
theorem missing_manifest_fatal_missing_lock_not :
    (∀ (p : String) (pl : Option (Option PackageLock)),
      loadProjectPackages p none pl =
        .error ("package.json が見つかりません: " ++ p ++ "/package.json"))
    ∧ (∀ (lst proj outp content : String) (pl : Option (Option PackageLock)),
        mainRun [lst, proj, outp] ⟨some content, none, pl⟩ = (1, none))
    ∧ (∀ (p : String) (pj : PackageJson),
        loadProjectPackages p (some pj) none =
          .ok (applyWrites (pj.peerDependencies.getD [])
                (applyWrites (pj.devDependencies.getD [])
                  (applyWrites (pj.dependencies.getD []) [])),
            [.info "package-lock.json が見つかりません（package.jsonのみ使用）"])) := by
  refine ⟨fun p pl => rfl, fun lst proj outp content pl => ?_, fun p pj => rfl⟩
  simp [mainRun, loadProjectPackages]

/-- C8: the resolved map is seeded from the manifest dependency fields
first and the lockfile-derived writes are applied afterwards, so a lookup
returns the last lockfile write for the name when one exists and falls
back to the manifest value otherwise; on a collision the lockfile value
overwrites the manifest value (manifest `a = 1.0.0`, lockfile
`a = 9.9.9` resolves to `9.9.9`). -/
theorem lockfile_overwrites_manifest :
    (∀ (p : String) (pj : PackageJson) (lock : PackageLock),
      loadProjectPackages p (some pj) (some (some lock)) =
        .ok (applyWrites (lockWrites lock) (applyWrites (manifestWrites pj) []),
          [.info "package-lock.json からも依存関係を読み込みました"]))
    ∧ (∀ (pj : PackageJson) (lock : PackageLock) (k : String),
        getKey (applyWrites (lockWrites lock) (applyWrites (manifestWrites pj) [])) k =
          match lookupLast (lockWrites lock) k with
          | some v => some v
          | none => getKey (applyWrites (manifestWrites pj) []) k)
    ∧ getKey (applyWrites
          (lockWrites ⟨some (.cons "a" (some "9.9.9") .nil .nil), none⟩)
          (applyWrites (manifestWrites ⟨some [("a", "1.0.0")], none, none⟩) [])) "a"
        = some "9.9.9" := by
  refine ⟨?_, ?_, by decide⟩
  · intro p pj lock
    rw [loadProjectPackages_ok, okMap_lock_eq]
    rfl
  · intro pj lock k
    rw [getKey_applyWrites]

/-- C9: a watch entry whose package name is absent from the resolved map
produces no MatchRecord and no error; when the MatchRecord list is empty
no output file is written, an informational message is the only
observable effect, and the run exits zero. -/
theorem absent_entries_and_empty_results_noop :
    (∀ (m : PkgMap) (ps : List WatchEntry) (n : String), getKey m n = none →
      ∀ r ∈ buildResults m ps, r.packageName ≠ n)
    ∧ (∀ outp : String, writeResultsToCSV [] outp =
        (none, [.info "検出されたパッケージがありません。"]))
    ∧ (∀ (lst proj outp content : String) (pj : PackageJson)
        (pl : Option (Option PackageLock)),
        buildResults (okMap pj pl) (loadPackageListContent content) = [] →
        mainRun [lst, proj, outp] ⟨some content, some pj, pl⟩ = (0, none)) := by
  refine ⟨?_, fun outp => rfl, ?_⟩
  · intro m ps n hn r hr
    rw [buildResults, List.mem_filterMap] at hr
    obtain ⟨p, hp, hf⟩ := hr
    intro hrn
    cases hk : getKey m p.packageName with
    | none =>
      simp only [hk] at hf
      exact Option.noConfusion hf
    | some iv =>
      simp only [hk] at hf
      by_cases hiv : iv = ""
      · rw [if_pos hiv] at hf
        exact Option.noConfusion hf
      · rw [if_neg hiv] at hf
        injection hf with hf
        subst hf
        have hpn : p.packageName = n := hrn
        rw [hpn, hn] at hk
        exact Option.noConfusion hk
  · intro lst proj outp content pj pl hempty
    have hload := loadProjectPackages_ok proj pj pl
    simp [mainRun, hload, hempty, writeResultsToCSV]

/-- C9 witness: a watch list naming only `react` against a project that
only has `lodash` matches nothing, writes no file, and exits zero. -/
theorem absent_entries_and_empty_results_noop_witness :
    mainRun ["list.txt", "proj", "out.csv"]
      ⟨some "react", some ⟨some [("lodash", "1.0.0")], none, none⟩, none⟩ = (0, none) :=
  absent_entries_and_empty_results_noop.2.2 "list.txt" "proj" "out.csv" "react"
    ⟨some [("lodash", "1.0.0")], none, none⟩ none (by decide)

end CheckPackages
